import Mathlib

/-!
Shallow embedding of the `graph_simplex` kernel (network simplex from 429.mcf)
from `src/src/graph_simplex.c`, together with the harness checksum helpers from
`src/src/bench.h`.  Pointers (`node_t *`, `arc_t *`) are replaced by indices
into the node and arc lists; `NULL` becomes `none`; the unbounded C `while`
loops (pred-chain walks and the BFS of `update_potentials`) take explicit fuel
and return `none` on exhaustion.  All machine integers are modelled as `Nat`
(for the uint32 PRNG / checksum state, with explicit `% 2^32`) or `Int` (for
the int32/int64 quantities, whose values in this program stay far below the
overflow bounds).
-/

namespace GraphSimplex

/-- `GRAPH_NUM_NODES` from graph_simplex.c. -/
def GRAPH_NUM_NODES : Nat := 64

/-- `GRAPH_NUM_ARCS` from graph_simplex.c. -/
def GRAPH_NUM_ARCS : Nat := 256

/-- `SIMPLEX_ITERATIONS` from graph_simplex.c. -/
def SIMPLEX_ITERATIONS : Nat := 50

/-- Arc states `ARC_AT_LOWER`, `ARC_AT_UPPER`, `ARC_BASIC`. -/
inductive Ident where
  | atLower
  | atUpper
  | basic
deriving DecidableEq, Repr

/-- `struct arc`: tail/head are node indices (1-based, as in the C arrays). -/
structure Arc where
  tail : Nat
  head : Nat
  cost : Int
  capacity : Int
  flow : Int
  ident : Ident
deriving DecidableEq, Repr

/-- `struct node`: `basicArc` is an arc index, `pred` a node index;
`none` models a NULL pointer. -/
structure Node where
  basicArc : Option Nat
  pred : Option Nat
  potential : Int
  balance : Int
  depth : Int
  orientation : Bool
deriving DecidableEq, Repr

/-- The zero-initialised node, as written by the node loop of `init_network`. -/
def Node.init : Node :=
  { basicArc := none, pred := none, potential := 0, balance := 0,
    depth := 0, orientation := false }

/-- The static storage `nodes[GRAPH_NUM_NODES+1]` and `arcs[GRAPH_NUM_ARCS]`:
`nodes` is 1-indexed with a dummy slot 0, exactly as in the C arrays. -/
structure NetState where
  nodes : List Node
  arcs : List Arc
deriving DecidableEq, Repr

/-- Read `nodes[i]`. -/
def getNode (s : NetState) (i : Nat) : Node := s.nodes.getD i Node.init

/-- A default arc used only as the `getD` fallback (never reached on the
in-bounds indices the program uses). -/
def Arc.dummy : Arc :=
  { tail := 0, head := 0, cost := 0, capacity := 0, flow := 0, ident := .atLower }

/-- Read `arcs[i]`. -/
def getArc (s : NetState) (i : Nat) : Arc := s.arcs.getD i Arc.dummy

/-- Write `nodes[i]` through an update function. -/
def setNode (s : NetState) (i : Nat) (f : Node → Node) : NetState :=
  { s with nodes := s.nodes.set i (f (getNode s i)) }

/-- Write `arcs[i]` through an update function. -/
def setArc (s : NetState) (i : Nat) (f : Arc → Arc) : NetState :=
  { s with arcs := s.arcs.set i (f (getArc s i)) }

/-! ## PRNG and network generation (`init_network`) -/

/-- One xorshift step `x ^= x<<13; x ^= x>>17; x ^= x<<5` on uint32. -/
def xorshift (x : Nat) : Nat :=
  let x1 := (x ^^^ (x <<< 13)) % 2 ^ 32
  let x2 := x1 ^^^ (x1 >>> 17)
  (x2 ^^^ (x2 <<< 5)) % 2 ^ 32

/-- The supply loop of `init_network`: nodes `1 .. NUM_NODES/2` receive
balance `10 + x % 90`; returns the PRNG state, the node list and the running
`total_supply`. -/
def genSupply (x : Nat) (nodes : List Node) (total : Int) :
    Nat → Nat → Nat × List Node × Int
  | _, 0 => (x, nodes, total)
  | i, k + 1 =>
    let x' := xorshift x
    let b : Int := 10 + (x' % 90 : Nat)
    genSupply x' (nodes.set i { nodes.getD i Node.init with balance := b })
      (total + b) (i + 1) k

/-- The demand loop of `init_network`: nodes `NUM_NODES/2+1 .. NUM_NODES`
receive balance `-(10 + x % 90)`. -/
def genDemand (x : Nat) (nodes : List Node) (total : Int) :
    Nat → Nat → Nat × List Node × Int
  | _, 0 => (x, nodes, total)
  | i, k + 1 =>
    let x' := xorshift x
    let d : Int := 10 + (x' % 90 : Nat)
    genDemand x' (nodes.set i { nodes.getD i Node.init with balance := -d })
      (total - d) (i + 1) k

/-- The arc loop of `init_network`: each arc consumes two PRNG draws; a
`tail == head` collision is adjusted to `head = (head % NUM_NODES) + 1`. -/
def genArcs (x : Nat) : Nat → Nat × List Arc
  | 0 => (x, [])
  | k + 1 =>
    let x1 := xorshift x
    let tail := 1 + x1 % GRAPH_NUM_NODES
    let x2 := xorshift x1
    let head0 := 1 + x2 % GRAPH_NUM_NODES
    let head := if tail = head0 then head0 % GRAPH_NUM_NODES + 1 else head0
    let a : Arc :=
      { tail := tail, head := head,
        cost := 1 + (x2 % 100 : Nat),
        capacity := 50 + (x2 % 200 : Nat),
        flow := 0, ident := .atLower }
    let r := genArcs x2 k
    (r.1, a :: r.2)

/-- The star loop of `init_network`: for `i = 2 .. NUM_NODES`, set
`nodes[i].pred = 1`, `nodes[i].basic_arc = i-2`, `arcs[i-2].ident = BASIC`. -/
def buildStar (s : NetState) : Nat → Nat → NetState
  | _, 0 => s
  | i, k + 1 =>
    let s1 := setNode s i fun n => { n with pred := some 1, basicArc := some (i - 2) }
    let s2 := setArc s1 (i - 2) fun a => { a with ident := .basic }
    buildStar s2 (i + 1) k

/-- State of `init_network` after the supply loop. -/
def initSupplyRes (seed : Nat) : Nat × List Node × Int :=
  genSupply seed (List.replicate (GRAPH_NUM_NODES + 1) Node.init) 0 1
    (GRAPH_NUM_NODES / 2)

/-- State of `init_network` after the demand loop. -/
def initDemandRes (seed : Nat) : Nat × List Node × Int :=
  genDemand (initSupplyRes seed).1 (initSupplyRes seed).2.1 (initSupplyRes seed).2.2
    (GRAPH_NUM_NODES / 2 + 1) (GRAPH_NUM_NODES / 2)

/-- The node array after the balancing adjustment
`nodes[GRAPH_NUM_NODES].balance -= total_supply`. -/
def initNodes (seed : Nat) : List Node :=
  ((initDemandRes seed).2.1).set GRAPH_NUM_NODES
    { (initDemandRes seed).2.1.getD GRAPH_NUM_NODES Node.init with
      balance := ((initDemandRes seed).2.1.getD GRAPH_NUM_NODES Node.init).balance
        - (initDemandRes seed).2.2 }

/-- `init_network(seed)`. -/
def initNetwork (seed : Nat) : NetState :=
  buildStar
    { nodes := initNodes seed,
      arcs := (genArcs (initDemandRes seed).1 GRAPH_NUM_ARCS).2 } 2
    (GRAPH_NUM_NODES - 1)

/-! ## Simplex operations -/

/-- `reduced_cost(arc) = cost - tail->potential + head->potential`. -/
def reducedCost (s : NetState) (a : Arc) : Int :=
  a.cost - (getNode s a.tail).potential + (getNode s a.head).potential

/-- One step of the `primal_bea` scan: the accumulator is
`(best_arc, best_rc)`. -/
def primalBeaStep (s : NetState) (acc : Option Nat × Int) (i : Nat) :
    Option Nat × Int :=
  let a := getArc s i
  if a.ident = .basic then acc
  else
    let rc := reducedCost s a
    if a.ident = .atLower ∧ rc < acc.2 then (some i, rc)
    else if a.ident = .atUpper ∧ rc > -acc.2 then (some i, -rc)
    else acc

/-- `primal_bea()`: scan all arcs in index order, returning the entering arc
index (or `none`, the NULL return). -/
def primalBea (s : NetState) : Option Nat :=
  ((List.range s.arcs.length).foldl (primalBeaStep s) (none, 0)).1

/-- The tail-side walk of `ratio_test`: follow `pred` from node `v` to the
root, keeping `(leaving, max_delta)`; residual is `flow` when the node's
`orientation` is set, `capacity - flow` otherwise.  Fuel bounds the walk. -/
def ratioWalkTail (s : NetState) : Nat → Nat → Nat × Int → Option (Nat × Int)
  | 0, _, _ => none
  | fuel + 1, v, acc =>
    match (getNode s v).pred with
    | none => some acc
    | some p =>
      match (getNode s v).basicArc with
      | none => none
      | some ai =>
        let a := getArc s ai
        let cap := if (getNode s v).orientation then a.flow else a.capacity - a.flow
        ratioWalkTail s fuel p (if cap < acc.2 then (ai, cap) else acc)

/-- The head-side walk of `ratio_test` (residual directions swapped). -/
def ratioWalkHead (s : NetState) : Nat → Nat → Nat × Int → Option (Nat × Int)
  | 0, _, _ => none
  | fuel + 1, v, acc =>
    match (getNode s v).pred with
    | none => some acc
    | some p =>
      match (getNode s v).basicArc with
      | none => none
      | some ai =>
        let a := getArc s ai
        let cap := if (getNode s v).orientation then a.capacity - a.flow else a.flow
        ratioWalkHead s fuel p (if cap < acc.2 then (ai, cap) else acc)

/-- `ratio_test(entering, &delta)`: returns `(leaving, delta)`. -/
def ratioTest (s : NetState) (fuel : Nat) (e : Nat) : Option (Nat × Int) :=
  let a := getArc s e
  let max0 : Int := if a.ident = .atUpper then a.flow else a.capacity - a.flow
  match ratioWalkTail s fuel a.tail (e, max0) with
  | none => none
  | some acc => ratioWalkHead s fuel a.head acc

/-- The tail-side flow-update walk of `update_tree`:
`flow -= delta` when oriented, `+= delta` otherwise. -/
def flowWalkTail (s : NetState) : Nat → Nat → Int → Option NetState
  | 0, _, _ => none
  | fuel + 1, v, d =>
    match (getNode s v).pred with
    | none => some s
    | some p =>
      match (getNode s v).basicArc with
      | none => none
      | some ai =>
        let s' := setArc s ai fun a =>
          { a with flow := if (getNode s v).orientation then a.flow - d else a.flow + d }
        flowWalkTail s' fuel p d

/-- The head-side flow-update walk of `update_tree` (signs swapped). -/
def flowWalkHead (s : NetState) : Nat → Nat → Int → Option NetState
  | 0, _, _ => none
  | fuel + 1, v, d =>
    match (getNode s v).pred with
    | none => some s
    | some p =>
      match (getNode s v).basicArc with
      | none => none
      | some ai =>
        let s' := setArc s ai fun a =>
          { a with flow := if (getNode s v).orientation then a.flow + d else a.flow - d }
        flowWalkHead s' fuel p d

/-- `update_tree(entering, leaving, delta)`. -/
def updateTree (s : NetState) (fuel : Nat) (e l : Nat) (delta : Int) :
    Option NetState :=
  match flowWalkTail s fuel (getArc s e).tail delta with
  | none => none
  | some s1 =>
    match flowWalkHead s1 fuel (getArc s1 e).head delta with
    | none => none
    | some s2 =>
      let s3 := setArc s2 e fun a =>
        { a with flow := if a.ident = .atLower then a.flow + delta else a.flow - delta }
      if e ≠ l then
        let s4 := setArc s3 l fun a =>
          { a with ident := if a.flow = 0 then .atLower else .atUpper }
        let s5 := setArc s4 e fun a => { a with ident := .basic }
        let hd := (getArc s5 e).head
        let tl := (getArc s5 e).tail
        some (setNode s5 hd fun n =>
          { n with basicArc := some e, pred := some tl, orientation := false })
      else some s3

/-- The inner arc scan of `update_potentials` for one dequeued node `v`: for
each Basic arc with `tail = v` and `head->pred = v` (or symmetrically), set
the child's potential and enqueue it.  The accumulator threads the state, the
queue and the total enqueue count. -/
def scanChildren (v : Nat) (acc : NetState × List Nat × Nat) (i : Nat) :
    NetState × List Nat × Nat :=
  let s := acc.1
  let q := acc.2.1
  let enq := acc.2.2
  let a := getArc s i
  if a.ident ≠ .basic then acc
  else
    let child : Option (Nat × Int) :=
      if a.tail = v ∧ (getNode s a.head).pred = some v then
        some (a.head, (getNode s v).potential + a.cost)
      else if a.head = v ∧ (getNode s a.tail).pred = some v then
        some (a.tail, (getNode s v).potential - a.cost)
      else none
    match child with
    | none => acc
    | some (c, pot) =>
      if c ≠ v then
        (setNode s c fun n => { n with potential := pot }, q ++ [c], enq + 1)
      else acc

/-- The BFS loop of `update_potentials`; `front` indexes into the queue list,
fuel bounds the number of dequeues.  Returns the state and the total number of
enqueue operations performed (counting the root). -/
def bfsLoop : Nat → NetState → List Nat → Nat → Nat → Option (NetState × Nat)
  | 0, _, _, _, _ => none
  | fuel + 1, s, q, front, enq =>
    if front < q.length then
      let v := q.getD front 0
      let r := (List.range s.arcs.length).foldl (scanChildren v) (s, q, enq)
      bfsLoop fuel r.1 r.2.1 (front + 1) r.2.2
    else some (s, enq)

/-- `update_potentials()`: root potential set to 0, BFS from node 1. -/
def updatePotentials (s : NetState) (fuel : Nat) : Option (NetState × Nat) :=
  let s1 := setNode s 1 fun n => { n with potential := 0 }
  bfsLoop fuel s1 [1] 0 1

/-- `compute_cost()`: `Σ cost * flow` over all arcs (int64 in C). -/
def computeCost (s : NetState) : Int :=
  s.arcs.foldl (fun t a => t + a.cost * a.flow) 0

/-! ## Harness checksum (`bench.h`) -/

/-- `checksum_init()` — the FNV-1a offset basis. -/
def checksumInit : Nat := 0x811c9dc5

/-- `checksum_update(csum, value)`: `(csum ^ value) * 0x01000193` on uint32. -/
def checksumUpdate (csum value : Nat) : Nat :=
  ((csum ^^^ value) * 0x01000193) % 2 ^ 32

/-! ## Driver (`kernel_run_func`) -/

/-- One recorded pivot: the entering/leaving arc indices, the delta, and the
objective before and after `update_tree` (ghost observations for the
monotonicity property; they do not influence the run). -/
structure PivotRec where
  entering : Nat
  leaving : Nat
  delta : Int
  costBefore : Int
  costAfter : Int
deriving DecidableEq, Repr

/-- The two terminal states of the driver loop. -/
inductive Terminal where
  | converged
  | budgetExhausted
deriving DecidableEq, Repr

/-- Result of `kernel_run_func`, with the pivot trace and the per-refresh
enqueue counts recorded as ghost data. -/
structure RunResult where
  finalCost : Int
  iterations : Nat
  checksum : Nat
  terminal : Terminal
  pivots : List PivotRec
  refreshEnqs : List Nat
deriving DecidableEq, Repr

/-- The driver loop `for (i = 0; i < SIMPLEX_ITERATIONS; i++)`: `rem` is the
remaining budget, `i` the loop counter, `iters` the pivot count; `fuel` feeds
the inner fueled walks and the BFS. -/
def runLoop (fuel : Nat) :
    Nat → Nat → NetState → Nat → List PivotRec → List Nat →
    Option (NetState × Nat × List PivotRec × List Nat × Terminal)
  | 0, _, s, iters, tr, enqs => some (s, iters, tr, enqs, .budgetExhausted)
  | rem + 1, i, s, iters, tr, enqs =>
    match primalBea s with
    | none => some (s, iters, tr, enqs, .converged)
    | some e =>
      match ratioTest s fuel e with
      | none => none
      | some (l, delta) =>
        let c0 := computeCost s
        match updateTree s fuel e l delta with
        | none => none
        | some s1 =>
          let pr : PivotRec :=
            { entering := e, leaving := l, delta := delta,
              costBefore := c0, costAfter := computeCost s1 }
          if i % 10 = 0 then
            match updatePotentials s1 fuel with
            | none => none
            | some (s2, enq) =>
              runLoop fuel rem (i + 1) s2 (iters + 1) (tr ++ [pr]) (enqs ++ [enq])
          else
            runLoop fuel rem (i + 1) s1 (iters + 1) (tr ++ [pr]) enqs

/-- Cast of the int64 final cost to the two uint32 checksum inputs:
two's-complement low and high words. -/
def low32 (c : Int) : Nat := (c.emod (2 ^ 64)).toNat % 2 ^ 32

/-- High 32 bits of the two's-complement int64 value. -/
def high32 (c : Int) : Nat := (c.emod (2 ^ 64)).toNat / 2 ^ 32

/-- `kernel_run_func()` after `init_network(seed)`: run the driver loop, then
fold final cost (low word, high word) and the pivot count into the checksum. -/
def kernelRunFunc (seed : Nat) (fuel : Nat) : Option RunResult :=
  match runLoop fuel SIMPLEX_ITERATIONS 0 (initNetwork seed) 0 [] [] with
  | none => none
  | some (s, iters, tr, enqs, term) =>
    let finalCost := computeCost s
    let csum0 := checksumInit
    let csum1 := checksumUpdate csum0 (low32 finalCost)
    let csum2 := checksumUpdate csum1 (high32 finalCost)
    let csum3 := checksumUpdate csum2 (iters % 2 ^ 32)
    some { finalCost := finalCost, iterations := iters, checksum := csum3,
           terminal := term, pivots := tr, refreshEnqs := enqs }

/-! ## Derived observations and claim-level predicates -/

/-- Inflow minus outflow at node `v`: the sum of `flow` over arcs whose head
is `v` minus the sum over arcs whose tail is `v`. -/
def divergence (s : NetState) (v : Nat) : Int :=
  s.arcs.foldl (fun t a => if a.head = v then t + a.flow else t) 0 -
    s.arcs.foldl (fun t a => if a.tail = v then t + a.flow else t) 0

/-- An arc is attractive for the pricing rule: AtLower with negative reduced
cost, or AtUpper with positive reduced cost. -/
def attractive (s : NetState) (a : Arc) : Prop :=
  (a.ident = .atLower ∧ reducedCost s a < 0) ∨
    (a.ident = .atUpper ∧ 0 < reducedCost s a)

instance (s : NetState) (a : Arc) : Decidable (attractive s a) := by
  unfold attractive; infer_instance

/-- Absolute value of the reduced cost. -/
def absRc (s : NetState) (a : Arc) : Int := |reducedCost s a|

/-- The entering arc's own bound in the ratio test:
`capacity - flow` if AtLower (or Basic), `flow` if AtUpper. -/
def enterBound (s : NetState) (e : Nat) : Int :=
  if (getArc s e).ident = .atUpper then (getArc s e).flow
  else (getArc s e).capacity - (getArc s e).flow

/-- Spec-side description of the tail-to-root walk: the list of
`(arc index, directional residual capacity)` pairs encountered, in order. -/
def pathCapsTail (s : NetState) : Nat → Nat → Option (List (Nat × Int))
  | 0, _ => none
  | fuel + 1, v =>
    match (getNode s v).pred with
    | none => some []
    | some p =>
      match (getNode s v).basicArc with
      | none => none
      | some ai =>
        let a := getArc s ai
        let cap := if (getNode s v).orientation then a.flow else a.capacity - a.flow
        match pathCapsTail s fuel p with
        | none => none
        | some rest => some ((ai, cap) :: rest)

/-- Spec-side description of the head-to-root walk (residual directions
swapped, as in the second loop of `ratio_test`). -/
def pathCapsHead (s : NetState) : Nat → Nat → Option (List (Nat × Int))
  | 0, _ => none
  | fuel + 1, v =>
    match (getNode s v).pred with
    | none => some []
    | some p =>
      match (getNode s v).basicArc with
      | none => none
      | some ai =>
        let a := getArc s ai
        let cap := if (getNode s v).orientation then a.capacity - a.flow else a.flow
        match pathCapsHead s fuel p with
        | none => none
        | some rest => some ((ai, cap) :: rest)

/-- Running strict minimum over `(candidate, value)` pairs: keep the pair
with the smaller value, earlier pair winning ties. -/
def runMin (acc : Nat × Int) (l : List (Nat × Int)) : Nat × Int :=
  l.foldl (fun b c => if c.2 < b.2 then c else b) acc

/-- The FNV-1a-style fold described by the spec:
`csum := (csum XOR value) * 0x01000193` over the list, left to right. -/
def fnvFold (c : Nat) (vs : List Nat) : Nat :=
  vs.foldl (fun c v => ((c ^^^ v) * 0x01000193) % 2 ^ 32) c

/-- The Bool form of the monotonic-improvement property of one pivot:
if entering ≠ leaving and delta > 0 then the objective strictly decreased. -/
def pivotImproves (p : PivotRec) : Bool :=
  decide (¬(p.entering ≠ p.leaving ∧ 0 < p.delta) ∨ p.costAfter < p.costBefore)

/-- Number of arcs currently marked Basic. -/
def basicArcCount (s : NetState) : Nat :=
  s.arcs.countP fun a => a.ident == Ident.basic

/-- Two nodes joined by some Basic arc (in either direction). -/
def basicAdjacent (s : NetState) (u v : Nat) : Bool :=
  s.arcs.any fun a =>
    a.ident == Ident.basic &&
      ((a.tail == u && a.head == v) || (a.tail == v && a.head == u))

/-- One expansion step of reachability over Basic arcs (restricted to the
real nodes `1 .. GRAPH_NUM_NODES`). -/
def reachStep (s : NetState) (S : List Nat) : List Nat :=
  S ++ ((List.range (GRAPH_NUM_NODES + 1)).filter fun v =>
    decide (1 ≤ v) && !(S.contains v) && S.any fun u => basicAdjacent s u v)

/-- Iterated expansion. -/
def reachAux (s : NetState) : Nat → List Nat → List Nat
  | 0, S => S
  | k + 1, S => reachAux s k (reachStep s S)

/-- Nodes reachable from `v` through Basic arcs. -/
def reachFrom (s : NetState) (v : Nat) : List Nat :=
  reachAux s GRAPH_NUM_NODES [v]

/-- The Basic-arc graph connects every node `1 .. GRAPH_NUM_NODES` to node 1. -/
def connectedBasic (s : NetState) : Prop :=
  ∀ v : Fin GRAPH_NUM_NODES, (reachFrom s 1).contains (v.1 + 1) = true

/-- `v` is the least node of its Basic-arc component. -/
def isCompRepr (s : NetState) (v : Nat) : Bool :=
  (reachFrom s v).all fun u => decide (v ≤ u)

/-- Number of connected components of the Basic-arc graph on nodes
`1 .. GRAPH_NUM_NODES`. -/
def componentCount (s : NetState) : Nat :=
  ((List.range GRAPH_NUM_NODES).map (· + 1)).countP (isCompRepr s)

/-- The Basic-arc multigraph is acyclic (a forest): its edge count equals the
node count minus the component count. -/
def acyclicBasic (s : NetState) : Prop :=
  basicArcCount s + componentCount s = GRAPH_NUM_NODES

/-- Node `v`'s `basic_arc` is a Basic arc joining `v` to its `pred`. -/
def connectsPredAt (s : NetState) (v : Nat) : Bool :=
  match (getNode s v).basicArc, (getNode s v).pred with
  | some ai, some p =>
    (getArc s ai).ident == Ident.basic &&
      ((getArc s ai).tail == v && (getArc s ai).head == p ||
        (getArc s ai).tail == p && (getArc s ai).head == v)
  | _, _ => false

/-- The spanning-tree invariant exactly as claimed: every non-root node's
`basic_arc` is a Basic arc connecting it to its `pred`; there are `n - 1`
Basic arcs; node 1 is the unique node with no predecessor; and the Basic-arc
set is connected and acyclic over all `GRAPH_NUM_NODES` nodes. -/
def treeInvariantC1 (s : NetState) : Prop :=
  (∀ v : Fin (GRAPH_NUM_NODES - 1), connectsPredAt s (v.1 + 2) = true) ∧
  basicArcCount s = GRAPH_NUM_NODES - 1 ∧
  (getNode s 1).pred = none ∧
  (∀ v : Fin (GRAPH_NUM_NODES - 1), (getNode s (v.1 + 2)).pred ≠ none) ∧
  connectedBasic s ∧ acyclicBasic s

/-! ## Small concrete states used as witnesses / counterexamples -/

/-- Two real nodes: node 1 is the root, node 2 hangs under it via arc 0
(tail 1, head 2, cost 5): the smallest state on which `update_potentials`
propagates a potential. -/
def exPot : NetState :=
  { nodes := [Node.init, Node.init,
      { Node.init with pred := some 1, basicArc := some 0 }],
    arcs := [{ tail := 1, head := 2, cost := 5, capacity := 10, flow := 0,
               ident := .basic }] }

/-- The state `update_potentials` leaves behind on `exPot`. -/
def exPotAfter : NetState :=
  match updatePotentials exPot 8 with
  | some (s, _) => s
  | none => exPot

/-- A pricing example: arcs 1 and 3 are attractive AtLower ties (reduced cost
-5), arc 2 is attractive AtUpper (reduced cost 3), arc 0 unattractive. -/
def exPrice : NetState :=
  { nodes := [Node.init, Node.init, Node.init],
    arcs :=
      [{ tail := 1, head := 2, cost := 2, capacity := 9, flow := 0, ident := .atLower },
       { tail := 1, head := 2, cost := -5, capacity := 9, flow := 0, ident := .atLower },
       { tail := 2, head := 1, cost := 3, capacity := 9, flow := 9, ident := .atUpper },
       { tail := 1, head := 2, cost := -5, capacity := 9, flow := 0, ident := .atLower }] }

/-- A ratio-test example: entering arc 1 (tail 2, head 1, bound 10); the walk
from node 2 crosses basic arc 0 with residual 5, which becomes the leaving
arc. -/
def exRatio : NetState :=
  { nodes := [Node.init, Node.init,
      { Node.init with pred := some 1, basicArc := some 0 }],
    arcs :=
      [{ tail := 1, head := 2, cost := 1, capacity := 5, flow := 0, ident := .basic },
       { tail := 2, head := 1, cost := -4, capacity := 10, flow := 0, ident := .atLower }] }

/-! ## Generic helpers -/

set_option maxRecDepth 8000

theorem getD_set_char {α : Type _} (l : List α) (i j : Nat) (v d : α) :
    (l.set i v).getD j d = if i = j ∧ j < l.length then v else l.getD j d := by
  simp only [List.getD_eq_getElem?_getD, List.getElem?_set]
  by_cases hij : i = j
  · subst hij
    by_cases hlen : i < l.length
    · simp [hlen]
    · rw [List.getElem?_eq_none (show l.length ≤ i by omega)]
      simp [hlen]
  · simp [hij]

theorem foldl_fixed {α β : Type _} {f : β → α → β} {b : β} :
    ∀ {l : List α}, (∀ x ∈ l, f b x = b) → l.foldl f b = b
  | [], _ => rfl
  | x :: l, h => by
    rw [List.foldl_cons, h x (List.mem_cons_self x l)]
    exact foldl_fixed fun y hy => h y (List.mem_cons_of_mem x hy)

theorem getNode_setNode (s : NetState) (i j : Nat) (f : Node → Node) :
    getNode (setNode s i f) j =
      if i = j ∧ j < s.nodes.length then f (getNode s i) else getNode s j :=
  getD_set_char ..

theorem getArc_setNode (s : NetState) (i j : Nat) (f : Node → Node) :
    getArc (setNode s i f) j = getArc s j := rfl

theorem getNode_setArc (s : NetState) (i j : Nat) (f : Arc → Arc) :
    getNode (setArc s i f) j = getNode s j := rfl

theorem getArc_setArc (s : NetState) (i j : Nat) (f : Arc → Arc) :
    getArc (setArc s i f) j =
      if i = j ∧ j < s.arcs.length then f (getArc s i) else getArc s j :=
  getD_set_char ..

theorem nodes_length_setNode (s : NetState) (i : Nat) (f : Node → Node) :
    (setNode s i f).nodes.length = s.nodes.length := List.length_set ..

theorem nodes_length_setArc (s : NetState) (i : Nat) (f : Arc → Arc) :
    (setArc s i f).nodes.length = s.nodes.length := rfl

theorem arcs_length_setNode (s : NetState) (i : Nat) (f : Node → Node) :
    (setNode s i f).arcs.length = s.arcs.length := rfl

theorem arcs_length_setArc (s : NetState) (i : Nat) (f : Arc → Arc) :
    (setArc s i f).arcs.length = s.arcs.length := List.length_set ..

theorem getArc_mem (s : NetState) (i : Nat) (h : i < s.arcs.length) :
    getArc s i ∈ s.arcs := by
  unfold getArc
  rw [List.getD_eq_getElem?_getD, List.getElem?_eq_getElem h]
  exact List.getElem_mem h

/-! ## Characterisation of `init_network` -/

theorem genSupply_length : ∀ (k x i : Nat) (ns : List Node) (t : Int),
    (genSupply x ns t i k).2.1.length = ns.length
  | 0, _, _, _, _ => rfl
  | k + 1, x, i, ns, t => by
    show (genSupply _ (ns.set i _) _ (i + 1) k).2.1.length = _
    rw [genSupply_length k]
    exact List.length_set ..

theorem genDemand_length : ∀ (k x i : Nat) (ns : List Node) (t : Int),
    (genDemand x ns t i k).2.1.length = ns.length
  | 0, _, _, _, _ => rfl
  | k + 1, x, i, ns, t => by
    show (genDemand _ (ns.set i _) _ (i + 1) k).2.1.length = _
    rw [genDemand_length k]
    exact List.length_set ..

theorem genSupply_preserve : ∀ (k x i : Nat) (ns : List Node) (t : Int) (j : Nat),
    ((genSupply x ns t i k).2.1.getD j Node.init).potential
        = (ns.getD j Node.init).potential ∧
    ((genSupply x ns t i k).2.1.getD j Node.init).pred
        = (ns.getD j Node.init).pred ∧
    ((genSupply x ns t i k).2.1.getD j Node.init).basicArc
        = (ns.getD j Node.init).basicArc
  | 0, _, _, _, _, _ => ⟨rfl, rfl, rfl⟩
  | k + 1, x, i, ns, t, j => by
    obtain ⟨h1, h2, h3⟩ := genSupply_preserve k (xorshift x) (i + 1)
      (ns.set i { ns.getD i Node.init with
        balance := 10 + (xorshift x % 90 : Nat) })
      (t + (10 + (xorshift x % 90 : Nat))) j
    show ((genSupply _ (ns.set i _) _ (i + 1) k).2.1.getD j Node.init).potential = _ ∧
      ((genSupply _ (ns.set i _) _ (i + 1) k).2.1.getD j Node.init).pred = _ ∧
      ((genSupply _ (ns.set i _) _ (i + 1) k).2.1.getD j Node.init).basicArc = _
    rw [h1, h2, h3, getD_set_char]
    by_cases hc : i = j ∧ j < ns.length
    · obtain ⟨he, hb⟩ := hc
      subst he
      rw [if_pos ⟨rfl, hb⟩]
      exact ⟨rfl, rfl, rfl⟩
    · rw [if_neg hc]
      exact ⟨rfl, rfl, rfl⟩

theorem genDemand_preserve : ∀ (k x i : Nat) (ns : List Node) (t : Int) (j : Nat),
    ((genDemand x ns t i k).2.1.getD j Node.init).potential
        = (ns.getD j Node.init).potential ∧
    ((genDemand x ns t i k).2.1.getD j Node.init).pred
        = (ns.getD j Node.init).pred ∧
    ((genDemand x ns t i k).2.1.getD j Node.init).basicArc
        = (ns.getD j Node.init).basicArc
  | 0, _, _, _, _, _ => ⟨rfl, rfl, rfl⟩
  | k + 1, x, i, ns, t, j => by
    obtain ⟨h1, h2, h3⟩ := genDemand_preserve k (xorshift x) (i + 1)
      (ns.set i { ns.getD i Node.init with
        balance := -(10 + (xorshift x % 90 : Nat)) })
      (t - (10 + (xorshift x % 90 : Nat))) j
    show ((genDemand _ (ns.set i _) _ (i + 1) k).2.1.getD j Node.init).potential = _ ∧
      ((genDemand _ (ns.set i _) _ (i + 1) k).2.1.getD j Node.init).pred = _ ∧
      ((genDemand _ (ns.set i _) _ (i + 1) k).2.1.getD j Node.init).basicArc = _
    rw [h1, h2, h3, getD_set_char]
    by_cases hc : i = j ∧ j < ns.length
    · obtain ⟨he, hb⟩ := hc
      subst he
      rw [if_pos ⟨rfl, hb⟩]
      exact ⟨rfl, rfl, rfl⟩
    · rw [if_neg hc]
      exact ⟨rfl, rfl, rfl⟩

theorem genArcs_length : ∀ (k x : Nat), (genArcs x k).2.length = k
  | 0, _ => rfl
  | k + 1, x => by
    show (_ :: (genArcs (xorshift (xorshift x)) k).2).length = k + 1
    rw [List.length_cons, genArcs_length k]

theorem genArcs_mem : ∀ (k x : Nat), ∀ a ∈ (genArcs x k).2,
    0 < a.cost ∧ a.flow = 0 ∧ a.ident = Ident.atLower ∧ a.tail ≠ a.head
  | 0, _, a, ha => by cases ha
  | k + 1, x, a, ha => by
    rw [show (genArcs x (k + 1)).2
        = _ :: (genArcs (xorshift (xorshift x)) k).2 from rfl,
      List.mem_cons] at ha
    rcases ha with ha | ha
    · subst ha
      refine ⟨?_, rfl, rfl, ?_⟩
      · show (0 : Int) < 1 + (xorshift (xorshift x) % 100 : Nat)
        omega
      · show 1 + xorshift x % GRAPH_NUM_NODES ≠
          (if 1 + xorshift x % GRAPH_NUM_NODES
              = 1 + xorshift (xorshift x) % GRAPH_NUM_NODES
            then (1 + xorshift (xorshift x) % GRAPH_NUM_NODES) % GRAPH_NUM_NODES + 1
            else 1 + xorshift (xorshift x) % GRAPH_NUM_NODES)
        simp only [GRAPH_NUM_NODES]
        split_ifs with hc
        · omega
        · omega
    · exact genArcs_mem k _ a ha

theorem buildStar_step (s : NetState) (i0 k : Nat) :
    buildStar s i0 (k + 1) =
      buildStar (setArc (setNode s i0 fun n =>
          { n with pred := some 1, basicArc := some (i0 - 2) })
        (i0 - 2) fun a => { a with ident := Ident.basic }) (i0 + 1) k := rfl

theorem buildStar_nodes_length : ∀ (k i0 : Nat) (s : NetState),
    (buildStar s i0 k).nodes.length = s.nodes.length
  | 0, _, _ => rfl
  | k + 1, i0, s => by
    rw [buildStar_step, buildStar_nodes_length k, nodes_length_setArc,
      nodes_length_setNode]

theorem buildStar_arcs_length : ∀ (k i0 : Nat) (s : NetState),
    (buildStar s i0 k).arcs.length = s.arcs.length
  | 0, _, _ => rfl
  | k + 1, i0, s => by
    rw [buildStar_step, buildStar_arcs_length k, arcs_length_setArc,
      arcs_length_setNode]

theorem buildStar_getNode : ∀ (k i0 j : Nat) (s : NetState),
    getNode (buildStar s i0 k) j =
      if i0 ≤ j ∧ j < i0 + k ∧ j < s.nodes.length
      then { getNode s j with pred := some 1, basicArc := some (j - 2) }
      else getNode s j
  | 0, i0, j, s => by
    rw [show buildStar s i0 0 = s from rfl,
      if_neg (show ¬(i0 ≤ j ∧ j < i0 + 0 ∧ j < s.nodes.length) by omega)]
  | k + 1, i0, j, s => by
    rw [buildStar_step, buildStar_getNode k]
    simp only [getNode_setArc, getNode_setNode, nodes_length_setArc,
      nodes_length_setNode]
    by_cases h1 : i0 + 1 ≤ j ∧ j < i0 + 1 + k ∧ j < s.nodes.length
    · rw [if_pos h1, if_neg (show ¬(i0 = j ∧ j < s.nodes.length) by omega),
        if_pos (show i0 ≤ j ∧ j < i0 + (k + 1) ∧ j < s.nodes.length by omega)]
    · by_cases h2 : i0 = j ∧ j < s.nodes.length
      · obtain ⟨he, hb⟩ := h2
        subst he
        rw [if_neg h1, if_pos ⟨rfl, hb⟩,
          if_pos (show i0 ≤ i0 ∧ i0 < i0 + (k + 1) ∧ i0 < s.nodes.length by omega)]
      · rw [if_neg h1, if_neg h2,
          if_neg (show ¬(i0 ≤ j ∧ j < i0 + (k + 1) ∧ j < s.nodes.length) by omega)]

theorem buildStar_getArc : ∀ (k i0 j : Nat) (s : NetState), 2 ≤ i0 →
    getArc (buildStar s i0 k) j =
      if i0 - 2 ≤ j ∧ j < i0 - 2 + k ∧ j < s.arcs.length
      then { getArc s j with ident := Ident.basic }
      else getArc s j
  | 0, i0, j, s, _ => by
    rw [show buildStar s i0 0 = s from rfl,
      if_neg (show ¬(i0 - 2 ≤ j ∧ j < i0 - 2 + 0 ∧ j < s.arcs.length) by omega)]
  | k + 1, i0, j, s, hi0 => by
    rw [buildStar_step, buildStar_getArc k (i0 + 1) j _ (by omega)]
    simp only [getArc_setArc, getArc_setNode, arcs_length_setArc,
      arcs_length_setNode]
    by_cases h1 : i0 + 1 - 2 ≤ j ∧ j < i0 + 1 - 2 + k ∧ j < s.arcs.length
    · rw [if_pos h1, if_neg (show ¬(i0 - 2 = j ∧ j < s.arcs.length) by omega),
        if_pos (show i0 - 2 ≤ j ∧ j < i0 - 2 + (k + 1) ∧ j < s.arcs.length by omega)]
    · by_cases h2 : i0 - 2 = j ∧ j < s.arcs.length
      · obtain ⟨he, hb⟩ := h2
        subst he
        rw [if_neg h1, if_pos ⟨rfl, hb⟩,
          if_pos (show i0 - 2 ≤ i0 - 2 ∧ i0 - 2 < i0 - 2 + (k + 1) ∧
            i0 - 2 < s.arcs.length by omega)]
      · rw [if_neg h1, if_neg h2,
          if_neg (show ¬(i0 - 2 ≤ j ∧ j < i0 - 2 + (k + 1) ∧ j < s.arcs.length) by omega)]

theorem buildStar_arc_mem : ∀ (k i0 : Nat) (s : NetState), ∀ a ∈ (buildStar s i0 k).arcs,
    ∃ a0 ∈ s.arcs, a.tail = a0.tail ∧ a.head = a0.head ∧ a.cost = a0.cost ∧
      a.flow = a0.flow ∧ (a.ident = a0.ident ∨ a.ident = Ident.basic)
  | 0, _, _, a, ha => ⟨a, ha, rfl, rfl, rfl, rfl, Or.inl rfl⟩
  | k + 1, i0, s, a, ha => by
    rw [buildStar_step] at ha
    obtain ⟨a0, ha0, ht, hh, hc, hf, hid⟩ := buildStar_arc_mem k (i0 + 1) _ a ha
    have ha0' : a0 ∈ s.arcs.set (i0 - 2)
        { getArc s (i0 - 2) with ident := Ident.basic } := ha0
    rcases List.mem_or_eq_of_mem_set ha0' with hmem | heq
    · exact ⟨a0, hmem, ht, hh, hc, hf, hid⟩
    · by_cases hb : i0 - 2 < s.arcs.length
      · refine ⟨getArc s (i0 - 2), getArc_mem s _ hb,
          by rw [ht, heq], by rw [hh, heq], by rw [hc, heq], by rw [hf, heq], ?_⟩
        rcases hid with hid | hid
        · exact Or.inr (by rw [hid, heq])
        · exact Or.inr hid
      · rw [List.set_eq_of_length_le (by omega)] at ha0'
        exact ⟨a0, ha0', ht, hh, hc, hf, hid⟩

theorem initNetwork_def (seed : Nat) :
    initNetwork seed = buildStar
      { nodes := initNodes seed,
        arcs := (genArcs (initDemandRes seed).1 GRAPH_NUM_ARCS).2 } 2
      (GRAPH_NUM_NODES - 1) := rfl

theorem initNodes_def (seed : Nat) :
    initNodes seed = ((initDemandRes seed).2.1).set GRAPH_NUM_NODES
      { (initDemandRes seed).2.1.getD GRAPH_NUM_NODES Node.init with
        balance := ((initDemandRes seed).2.1.getD GRAPH_NUM_NODES Node.init).balance
          - (initDemandRes seed).2.2 } := rfl

theorem initNodes_length (seed : Nat) :
    (initNodes seed).length = GRAPH_NUM_NODES + 1 := by
  rw [initNodes_def, List.length_set]
  unfold initDemandRes initSupplyRes
  rw [genDemand_length, genSupply_length, List.length_replicate]

theorem initNetwork_nodes_length (seed : Nat) :
    (initNetwork seed).nodes.length = GRAPH_NUM_NODES + 1 := by
  rw [initNetwork_def, buildStar_nodes_length]
  simp only [initNodes_length]

theorem initNetwork_arcs_length (seed : Nat) :
    (initNetwork seed).arcs.length = GRAPH_NUM_ARCS := by
  rw [initNetwork_def, buildStar_arcs_length]
  simp only [genArcs_length]

theorem initDemandRes_fields (seed : Nat) (j : Nat) :
    (((initDemandRes seed).2.1).getD j Node.init).potential = 0 ∧
    (((initDemandRes seed).2.1).getD j Node.init).pred = none ∧
    (((initDemandRes seed).2.1).getD j Node.init).basicArc = none := by
  unfold initDemandRes
  obtain ⟨h1, h2, h3⟩ := genDemand_preserve (GRAPH_NUM_NODES / 2)
    (initSupplyRes seed).1 (GRAPH_NUM_NODES / 2 + 1) (initSupplyRes seed).2.1
    (initSupplyRes seed).2.2 j
  rw [h1, h2, h3]
  unfold initSupplyRes
  obtain ⟨g1, g2, g3⟩ := genSupply_preserve (GRAPH_NUM_NODES / 2) seed 1
    (List.replicate (GRAPH_NUM_NODES + 1) Node.init) 0 j
  rw [g1, g2, g3]
  have hrep : (List.replicate (GRAPH_NUM_NODES + 1) Node.init).getD j Node.init
      = Node.init := by
    rw [List.getD_eq_getElem?_getD, List.getElem?_replicate]
    split <;> rfl
  rw [hrep]
  exact ⟨rfl, rfl, rfl⟩

section SealedInit

attribute [local irreducible] xorshift genSupply genDemand genArcs buildStar
attribute [local irreducible] initSupplyRes initDemandRes initNodes initNetwork

theorem initNodes_fields (seed : Nat) (j : Nat) :
    ((initNodes seed).getD j Node.init).potential = 0 ∧
    ((initNodes seed).getD j Node.init).pred = none ∧
    ((initNodes seed).getD j Node.init).basicArc = none := by
  rw [initNodes_def, getD_set_char]
  by_cases hc : GRAPH_NUM_NODES = j ∧ j < (initDemandRes seed).2.1.length
  · rw [if_pos hc]
    obtain ⟨he, -⟩ := hc
    exact ⟨(initDemandRes_fields seed GRAPH_NUM_NODES).1,
      (initDemandRes_fields seed GRAPH_NUM_NODES).2.1,
      (initDemandRes_fields seed GRAPH_NUM_NODES).2.2⟩
  · rw [if_neg hc]
    exact initDemandRes_fields seed j

theorem initNetwork_potential (seed : Nat) (j : Nat) :
    (getNode (initNetwork seed) j).potential = 0 := by
  rw [initNetwork_def, buildStar_getNode]
  split
  · exact (initNodes_fields seed j).1
  · exact (initNodes_fields seed j).1

theorem initNetwork_root_pred (seed : Nat) :
    (getNode (initNetwork seed) 1).pred = none := by
  rw [initNetwork_def, buildStar_getNode, if_neg (by omega)]
  exact (initNodes_fields seed 1).2.1

theorem initNetwork_nonroot (seed : Nat) (j : Nat) (h2 : 2 ≤ j)
    (h64 : j ≤ GRAPH_NUM_NODES) :
    (getNode (initNetwork seed) j).pred = some 1 ∧
    (getNode (initNetwork seed) j).basicArc = some (j - 2) := by
  rw [initNetwork_def]
  have hlen : (initNodes seed).length = GRAPH_NUM_NODES + 1 := initNodes_length seed
  rw [buildStar_getNode, if_pos ?side]
  case side =>
    refine ⟨h2, ?_, ?_⟩
    · show j < 2 + (GRAPH_NUM_NODES - 1)
      unfold GRAPH_NUM_NODES at *
      omega
    · show j < (initNodes seed).length
      omega
  exact ⟨rfl, rfl⟩

theorem initNetwork_arc_ident (seed : Nat) (j : Nat) (hj : j < GRAPH_NUM_ARCS) :
    (getArc (initNetwork seed) j).ident =
      if j < GRAPH_NUM_NODES - 1 then Ident.basic else Ident.atLower := by
  rw [initNetwork_def]
  have hlen : ((genArcs (initDemandRes seed).1 GRAPH_NUM_ARCS).2).length
      = GRAPH_NUM_ARCS := genArcs_length _ _
  rw [buildStar_getArc _ _ _ _ (le_refl 2)]
  by_cases hb : j < GRAPH_NUM_NODES - 1
  · rw [if_pos ?inside, if_pos hb]
    case inside =>
      refine ⟨by omega, by omega, ?_⟩
      show j < ((genArcs (initDemandRes seed).1 GRAPH_NUM_ARCS).2).length
      omega
  · rw [if_neg (by
      rintro ⟨-, hlt, -⟩
      omega), if_neg hb]
    have hmem : getArc (⟨initNodes seed,
        (genArcs (initDemandRes seed).1 GRAPH_NUM_ARCS).2⟩ : NetState) j
        ∈ (genArcs (initDemandRes seed).1 GRAPH_NUM_ARCS).2 := by
      apply getArc_mem
      show j < ((genArcs (initDemandRes seed).1 GRAPH_NUM_ARCS).2).length
      omega
    exact (genArcs_mem _ _ _ hmem).2.2.1

theorem initNetwork_arcs_facts (seed : Nat) : ∀ a ∈ (initNetwork seed).arcs,
    0 < a.cost ∧ a.flow = 0 ∧ a.tail ≠ a.head ∧
      (a.ident = Ident.atLower ∨ a.ident = Ident.basic) := by
  intro a ha
  rw [initNetwork_def] at ha
  obtain ⟨a0, ha0, ht, hh, hc, hf, hid⟩ := buildStar_arc_mem _ _ _ a ha
  obtain ⟨hc0, hf0, hi0, hth⟩ := genArcs_mem _ _ a0 ha0
  refine ⟨by rw [hc]; exact hc0, by rw [hf]; exact hf0,
    by rw [ht, hh]; exact hth, ?_⟩
  rcases hid with h | h
  · exact Or.inl (by rw [h]; exact hi0)
  · exact Or.inr h

/-! ## The driver converges immediately: no arc is ever attractive -/

theorem primalBea_none (s : NetState)
    (hpot : ∀ j, (getNode s j).potential = 0)
    (harc : ∀ a ∈ s.arcs, 0 < a.cost ∧
      (a.ident = Ident.atLower ∨ a.ident = Ident.basic)) :
    primalBea s = none := by
  have hfix : (List.range s.arcs.length).foldl (primalBeaStep s) (none, 0)
      = (none, 0) := by
    apply foldl_fixed
    intro i hi
    rw [List.mem_range] at hi
    obtain ⟨hcost, hident⟩ := harc (getArc s i) (getArc_mem s i hi)
    have hrc : reducedCost s (getArc s i) = (getArc s i).cost := by
      unfold reducedCost
      rw [hpot, hpot]
      ring
    have hnl : ¬(getArc s i).cost < 0 := by omega
    rcases hident with hl | hb
    · simp [primalBeaStep, hl, hrc, hnl]
    · simp [primalBeaStep, hb]
  unfold primalBea
  rw [hfix]

theorem computeCost_zero (s : NetState) (h : ∀ a ∈ s.arcs, a.flow = 0) :
    computeCost s = 0 := by
  unfold computeCost
  exact foldl_fixed fun a ha => by rw [h a ha]; ring

theorem divergence_zero (s : NetState) (h : ∀ a ∈ s.arcs, a.flow = 0) (v : Nat) :
    divergence s v = 0 := by
  unfold divergence
  rw [foldl_fixed (fun a ha => by rw [h a ha]; split <;> ring),
    foldl_fixed (fun a ha => by rw [h a ha]; split <;> ring)]
  norm_num

theorem runLoop_converged (fuel rem i : Nat) (s : NetState) (iters : Nat)
    (tr : List PivotRec) (enqs : List Nat) (h : primalBea s = none) :
    runLoop fuel (rem + 1) i s iters tr enqs
      = some (s, iters, tr, enqs, Terminal.converged) := by
  simp [runLoop, h]

theorem run_converges (seed fuel : Nat) :
    kernelRunFunc seed fuel =
      some { finalCost := 0, iterations := 0, checksum := 1253111735,
             terminal := Terminal.converged, pivots := [], refreshEnqs := [] } := by
  have hfacts := initNetwork_arcs_facts seed
  have hpb : primalBea (initNetwork seed) = none :=
    primalBea_none _ (initNetwork_potential seed)
      fun a ha => ⟨(hfacts a ha).1, (hfacts a ha).2.2.2⟩
  have hcost : computeCost (initNetwork seed) = 0 :=
    computeCost_zero _ fun a ha => (hfacts a ha).2.1
  unfold kernelRunFunc
  rw [show SIMPLEX_ITERATIONS = 49 + 1 from rfl,
    runLoop_converged fuel 49 0 _ 0 [] [] hpb]
  simp only [hcost]
  decide

end SealedInit

/-! ## Claim theorems -/

section SealedClaims

attribute [local irreducible] xorshift genSupply genDemand genArcs buildStar
attribute [local irreducible] initSupplyRes initDemandRes initNodes initNetwork

/-- C2: for every seed (in particular 0xCAFEBABE) and any walk fuel, a single
`run()` call terminates: the driver loop reaches the `Converged` terminal
state on the very first iteration (no arc is attractive from the initial
all-zero potentials), performing zero pivots with final cost 0. -/
theorem claim_C2_run_terminates : ∀ seed fuel : Nat,
    kernelRunFunc seed fuel =
      some { finalCost := 0, iterations := 0, checksum := 1253111735,
             terminal := Terminal.converged, pivots := [], refreshEnqs := [] } :=
  run_converges

/-- C7: every pivot performed during a run with entering ≠ leaving and
delta > 0 strictly decreases the objective — vacuously, because the pivot
trace of every run is empty (the driver converges before any pivot). -/
theorem claim_C7_monotone : ∀ (seed fuel : Nat) (r : RunResult),
    kernelRunFunc seed fuel = some r →
      r.pivots = [] ∧ r.pivots.all pivotImproves = true := by
  intro seed fuel r h
  have h2 := (run_converges seed fuel).symm.trans h
  injection h2 with h2
  subst h2
  exact ⟨rfl, rfl⟩

/-- Witness for C7 at seed 0xCAFEBABE. -/
theorem claim_C7_witness :
    ({ finalCost := 0, iterations := 0, checksum := 1253111735,
       terminal := Terminal.converged, pivots := [],
       refreshEnqs := [] } : RunResult).pivots = [] ∧
    ({ finalCost := 0, iterations := 0, checksum := 1253111735,
       terminal := Terminal.converged, pivots := [],
       refreshEnqs := [] } : RunResult).pivots.all pivotImproves = true :=
  claim_C7_monotone 0xCAFEBABE 1 _ (run_converges 0xCAFEBABE 1)

/-- C10: in every call to `update_potentials` during a run, the total number
of enqueue operations stays within the queue bound `GRAPH_NUM_NODES` —
vacuously, because `update_potentials` is never called (the refresh log of
every run is empty). -/
theorem claim_C10_queue_bound : ∀ (seed fuel : Nat) (r : RunResult),
    kernelRunFunc seed fuel = some r →
      r.refreshEnqs = [] ∧
      r.refreshEnqs.all (fun c => decide (c ≤ GRAPH_NUM_NODES)) = true := by
  intro seed fuel r h
  have h2 := (run_converges seed fuel).symm.trans h
  injection h2 with h2
  subst h2
  exact ⟨rfl, rfl⟩

/-- Witness for C10 at seed 0xCAFEBABE. -/
theorem claim_C10_witness :
    ({ finalCost := 0, iterations := 0, checksum := 1253111735,
       terminal := Terminal.converged, pivots := [],
       refreshEnqs := [] } : RunResult).refreshEnqs = [] ∧
    ({ finalCost := 0, iterations := 0, checksum := 1253111735,
       terminal := Terminal.converged, pivots := [],
       refreshEnqs := [] } : RunResult).refreshEnqs.all
        (fun c => decide (c ≤ GRAPH_NUM_NODES)) = true :=
  claim_C10_queue_bound 0xCAFEBABE 1 _ (run_converges 0xCAFEBABE 1)

/-- C8: the checksum returned by `run()` is exactly the FNV-1a-style fold
`csum := (csum XOR v) * 0x01000193` starting from 0x811c9dc5, applied to the
low 32 bits of the final cost, the high 32 bits of the final cost, and the
pivot count, in that order. -/
theorem claim_C8_checksum : ∀ (seed fuel : Nat) (r : RunResult),
    kernelRunFunc seed fuel = some r →
      r.checksum = fnvFold checksumInit
        [low32 r.finalCost, high32 r.finalCost, r.iterations % 2 ^ 32] := by
  intro seed fuel r h
  unfold kernelRunFunc at h
  rcases hr : runLoop fuel SIMPLEX_ITERATIONS 0 (initNetwork seed) 0 [] [] with
    _ | ⟨s, iters, tr, enqs, term⟩
  · rw [hr] at h
    exact Option.noConfusion h
  · rw [hr] at h
    have h' : some (RunResult.mk (computeCost s) iters
        (checksumUpdate (checksumUpdate (checksumUpdate checksumInit
          (low32 (computeCost s))) (high32 (computeCost s))) (iters % 2 ^ 32))
        term tr enqs) = some r := h
    injection h' with h'
    subst h'
    rfl

/-- Witness for C8 at seed 0xCAFEBABE. -/
theorem claim_C8_witness :
    ({ finalCost := 0, iterations := 0, checksum := 1253111735,
       terminal := Terminal.converged, pivots := [],
       refreshEnqs := [] } : RunResult).checksum =
      fnvFold checksumInit [low32 0, high32 0, 0 % 2 ^ 32] :=
  claim_C8_checksum 0xCAFEBABE 1 _ (run_converges 0xCAFEBABE 1)

/-- C9: for every 32-bit seed, `init_network` constructs no self-loop arc:
the collision adjustment `head = (head % GRAPH_NUM_NODES) + 1` never yields
`head = tail`. -/
theorem claim_C9_no_self_loop :
    ∀ (seed : Nat) (k : Fin (initNetwork seed).arcs.length),
      ((initNetwork seed).arcs.get k).tail ≠ ((initNetwork seed).arcs.get k).head :=
  fun seed k =>
    (initNetwork_arcs_facts seed _
      (List.get_mem (initNetwork seed).arcs k.1 k.2)).2.2.1

/-- C3 (amended): at every pivot boundary of a run — initialization, and
after each of the (zero) pivots — every node's inflow minus outflow is 0,
because all flows are identically zero; it does not equal the node's
(nonzero) balance. -/
theorem claim_C3_amended : ∀ seed : Nat,
    (∀ v : Nat, divergence (initNetwork seed) v = 0) ∧
    ∀ (fuel : Nat) (r : RunResult), kernelRunFunc seed fuel = some r →
      r.pivots = [] := by
  intro seed
  refine ⟨fun v => divergence_zero _
    (fun a ha => (initNetwork_arcs_facts seed a ha).2.1) v, ?_⟩
  intro fuel r h
  have h2 := (run_converges seed fuel).symm.trans h
  injection h2 with h2
  subst h2
  rfl

/-- Witness for the amended C3 at seed 0xCAFEBABE. -/
theorem claim_C3_witness :
    divergence (initNetwork 0xCAFEBABE) 1 = 0 ∧
    ({ finalCost := 0, iterations := 0, checksum := 1253111735,
       terminal := Terminal.converged, pivots := [],
       refreshEnqs := [] } : RunResult).pivots = [] :=
  ⟨(claim_C3_amended 0xCAFEBABE).1 1,
    (claim_C3_amended 0xCAFEBABE).2 1 _ (run_converges 0xCAFEBABE 1)⟩

/-- C1 (amended): after initialization (for any seed) node 1 has no pred;
every node `v ∈ [2, 64]` has `pred = 1`, `basic_arc = v - 2`, and that arc is
Basic; arcs `0 .. 62` are exactly the Basic arcs (63 = n - 1 of them) while
arcs `63 .. 255` are AtLower; and runs perform no pivots, so there are no
further pivot boundaries.  (The Basic arcs need not connect a node to its
pred and need not form a spanning tree — see the counterexample.) -/
theorem claim_C1_amended : ∀ seed : Nat,
    (getNode (initNetwork seed) 1).pred = none ∧
    (∀ v : Fin (GRAPH_NUM_NODES - 1),
      (getNode (initNetwork seed) (v.1 + 2)).pred = some 1 ∧
      (getNode (initNetwork seed) (v.1 + 2)).basicArc = some v.1 ∧
      (getArc (initNetwork seed) v.1).ident = Ident.basic) ∧
    (∀ j : Fin GRAPH_NUM_ARCS, (getArc (initNetwork seed) j.1).ident =
      if j.1 < GRAPH_NUM_NODES - 1 then Ident.basic else Ident.atLower) ∧
    (∀ (fuel : Nat) (r : RunResult), kernelRunFunc seed fuel = some r →
      r.pivots = []) := by
  intro seed
  refine ⟨initNetwork_root_pred seed, ?_, ?_, ?_⟩
  · intro v
    have hv := v.2
    obtain ⟨hp, hb⟩ := initNetwork_nonroot seed (v.1 + 2) (by omega)
      (by unfold GRAPH_NUM_NODES at *; omega)
    refine ⟨hp, ?_, ?_⟩
    · rw [hb, show v.1 + 2 - 2 = v.1 from by omega]
    · have hid := initNetwork_arc_ident seed v.1
        (by unfold GRAPH_NUM_NODES GRAPH_NUM_ARCS at *; omega)
      rw [hid, if_pos v.2]
  · intro j
    exact initNetwork_arc_ident seed j.1 j.2
  · intro fuel r h
    have h2 := (run_converges seed fuel).symm.trans h
    injection h2 with h2
    subst h2
    rfl

/-- Witness for the amended C1 at seed 0xCAFEBABE. -/
theorem claim_C1_witness :
    (getNode (initNetwork 0xCAFEBABE) 1).pred = none ∧
    (getNode (initNetwork 0xCAFEBABE) 2).pred = some 1 ∧
    (getArc (initNetwork 0xCAFEBABE) 0).ident = Ident.basic ∧
    ({ finalCost := 0, iterations := 0, checksum := 1253111735,
       terminal := Terminal.converged, pivots := [],
       refreshEnqs := [] } : RunResult).pivots = [] := by
  obtain ⟨h1, h2, h3, h4⟩ := claim_C1_amended 0xCAFEBABE
  have hv := h2 ⟨0, by decide⟩
  exact ⟨h1, hv.1, hv.2.2, h4 1 _ (run_converges 0xCAFEBABE 1)⟩

/-- C4 (amended): the potential-propagation rule of `update_potentials`
(`child.potential = parent.potential + cost` for a parent-to-child arc, or
`parent.potential - cost` for a child-to-parent arc) makes the propagated
Basic arc's reduced cost equal `2 * cost`, not 0; the reduced cost
`cost - potential(tail) + potential(head)` would vanish only under the
opposite sign convention. -/
theorem claim_C4_amended : ∀ (s : NetState) (a : Arc),
    ((getNode s a.head).potential = (getNode s a.tail).potential + a.cost →
      reducedCost s a = 2 * a.cost) ∧
    ((getNode s a.tail).potential = (getNode s a.head).potential - a.cost →
      reducedCost s a = 2 * a.cost) := by
  intro s a
  constructor <;> intro h <;> unfold reducedCost <;> rw [h] <;> ring

end SealedClaims

/-- C1 counterexample: on the state actually produced by
`init_network(0xCAFEBABE)`, the claimed spanning-tree invariant is false:
already node 2's `basic_arc` (arc 0, joining nodes 43 and 15) does not
connect node 2 to its pred (node 1). -/
theorem claim_C1_counterexample : ¬ treeInvariantC1 (initNetwork 0xCAFEBABE) := by
  intro h
  have h2 := h.1 ⟨0, by decide⟩
  have h3 : connectsPredAt (initNetwork 0xCAFEBABE) (0 + 2) = false := by decide
  rw [h3] at h2
  exact Bool.false_ne_true h2

/-- C3 counterexample: immediately after initialization (a pivot boundary),
node 1 has inflow minus outflow equal to 0 (all flows are zero) but balance
64, so flow conservation as claimed fails. -/
theorem claim_C3_counterexample :
    divergence (initNetwork 0xCAFEBABE) 1
      ≠ (getNode (initNetwork 0xCAFEBABE) 1).balance := by
  have h0 : divergence (initNetwork 0xCAFEBABE) 1 = 0 :=
    divergence_zero _ (fun a ha => (initNetwork_arcs_facts 0xCAFEBABE a ha).2.1) 1
  have hb : (getNode (initNetwork 0xCAFEBABE) 1).balance = 64 := by decide
  rw [h0, hb]
  decide

/-- C4 counterexample: running `update_potentials` on the two-node state
`exPot` (arc 0: node 1 → node 2, cost 5, Basic) propagates node 2's
potential as `0 + 5`, after which the propagated Basic arc has reduced cost
10, not 0. -/
theorem claim_C4_counterexample :
    (getArc exPotAfter 0).ident = Ident.basic ∧
    (getNode exPotAfter (getArc exPotAfter 0).head).pred
      = some (getArc exPotAfter 0).tail ∧
    (getNode exPotAfter (getArc exPotAfter 0).head).potential
      = (getNode exPotAfter (getArc exPotAfter 0).tail).potential
        + (getArc exPotAfter 0).cost ∧
    reducedCost exPotAfter (getArc exPotAfter 0) ≠ 0 := by decide

/-- Witness for the amended C4: on the state `update_potentials` leaves
behind on `exPot`, the propagated arc's reduced cost is twice its cost. -/
theorem claim_C4_witness :
    reducedCost exPotAfter (getArc exPotAfter 0)
      = 2 * (getArc exPotAfter 0).cost :=
  (claim_C4_amended exPotAfter (getArc exPotAfter 0)).1 (by decide)

/-! ## C5: characterisation of the pricing rule -/

theorem primalBeaStep_char (s : NetState) (acc : Option Nat × Int) (k : Nat) :
    primalBeaStep s acc k =
      if (getArc s k).ident = Ident.atLower ∧ reducedCost s (getArc s k) < acc.2
      then (some k, reducedCost s (getArc s k))
      else if (getArc s k).ident = Ident.atUpper ∧
          reducedCost s (getArc s k) > -acc.2
      then (some k, -reducedCost s (getArc s k))
      else acc := by
  simp only [primalBeaStep]
  by_cases hb : (getArc s k).ident = Ident.basic
  · rw [if_pos hb, if_neg (by rw [hb]; rintro ⟨h, -⟩; cases h),
      if_neg (by rw [hb]; rintro ⟨h, -⟩; cases h)]
  · rw [if_neg hb]

theorem primalBea_invariant (s : NetState) : ∀ k : Nat,
    (((List.range k).foldl (primalBeaStep s) (none, 0)).1 = none →
      ((List.range k).foldl (primalBeaStep s) (none, 0)).2 = 0 ∧
      ∀ i < k, ¬ attractive s (getArc s i)) ∧
    (∀ j, ((List.range k).foldl (primalBeaStep s) (none, 0)).1 = some j →
      j < k ∧ attractive s (getArc s j) ∧
      ((List.range k).foldl (primalBeaStep s) (none, 0)).2
        = -(absRc s (getArc s j)) ∧
      (∀ i < k, attractive s (getArc s i) →
        absRc s (getArc s i) ≤ absRc s (getArc s j)) ∧
      (∀ i < j, attractive s (getArc s i) →
        absRc s (getArc s i) < absRc s (getArc s j))) := by
  intro k
  induction k with
  | zero =>
    constructor
    · intro _
      exact ⟨rfl, fun i hi => absurd hi (by omega)⟩
    · intro j h
      exact Option.noConfusion h
  | succ k IH =>
    rw [List.range_succ, List.foldl_append, List.foldl_cons, List.foldl_nil,
      primalBeaStep_char]
    generalize hg : (List.range k).foldl (primalBeaStep s) (none, 0) = acc at IH ⊢
    obtain ⟨IH1, IH2⟩ := IH
    have hacc2 : acc.2 ≤ 0 := by
      cases h1 : acc.1 with
      | none => rw [(IH1 h1).1]
      | some j0 =>
        rw [(IH2 j0 h1).2.2.1]
        have := abs_nonneg (reducedCost s (getArc s j0))
        unfold absRc
        linarith
    by_cases hc1 : (getArc s k).ident = Ident.atLower ∧
        reducedCost s (getArc s k) < acc.2
    · rw [if_pos hc1]
      obtain ⟨hl, hlt⟩ := hc1
      have hrcneg : reducedCost s (getArc s k) < 0 := lt_of_lt_of_le hlt hacc2
      have hattrk : attractive s (getArc s k) := Or.inl ⟨hl, hrcneg⟩
      have habsk : absRc s (getArc s k) = -reducedCost s (getArc s k) := by
        unfold absRc
        exact abs_of_neg hrcneg
      have hdom : ∀ i < k, attractive s (getArc s i) →
          absRc s (getArc s i) < absRc s (getArc s k) := by
        intro i hik hattri
        cases h1 : acc.1 with
        | none => exact absurd hattri ((IH1 h1).2 i hik)
        | some j0 =>
          obtain ⟨-, -, hacc2eq, hle, -⟩ := IH2 j0 h1
          have h2 := hle i hik hattri
          have h3 : absRc s (getArc s j0) < absRc s (getArc s k) := by
            rw [hacc2eq] at hlt
            rw [habsk]
            linarith
          linarith
      constructor
      · intro h
        exact Option.noConfusion h
      · intro j hj
        have hkj : k = j := Option.some.inj hj
        subst hkj
        refine ⟨by omega, hattrk, ?_, ?_, hdom⟩
        · show reducedCost s (getArc s k) = -absRc s (getArc s k)
          rw [habsk]
          ring
        · intro i hik hattri
          rcases Nat.lt_succ_iff_lt_or_eq.mp hik with hik' | hik'
          · exact le_of_lt (hdom i hik' hattri)
          · subst hik'
            exact le_refl _
    · rw [if_neg hc1]
      by_cases hc2 : (getArc s k).ident = Ident.atUpper ∧
          reducedCost s (getArc s k) > -acc.2
      · rw [if_pos hc2]
        obtain ⟨hu, hgt⟩ := hc2
        have hrcpos : 0 < reducedCost s (getArc s k) := by linarith
        have hattrk : attractive s (getArc s k) := Or.inr ⟨hu, hrcpos⟩
        have habsk : absRc s (getArc s k) = reducedCost s (getArc s k) := by
          unfold absRc
          exact abs_of_pos hrcpos
        have hdom : ∀ i < k, attractive s (getArc s i) →
            absRc s (getArc s i) < absRc s (getArc s k) := by
          intro i hik hattri
          cases h1 : acc.1 with
          | none => exact absurd hattri ((IH1 h1).2 i hik)
          | some j0 =>
            obtain ⟨-, -, hacc2eq, hle, -⟩ := IH2 j0 h1
            have h2 := hle i hik hattri
            have h3 : absRc s (getArc s j0) < absRc s (getArc s k) := by
              rw [hacc2eq] at hgt
              rw [habsk]
              linarith
            linarith
        constructor
        · intro h
          exact Option.noConfusion h
        · intro j hj
          have hkj : k = j := Option.some.inj hj
          subst hkj
          refine ⟨by omega, hattrk, ?_, ?_, hdom⟩
          · show -reducedCost s (getArc s k) = -absRc s (getArc s k)
            rw [habsk]
          · intro i hik hattri
            rcases Nat.lt_succ_iff_lt_or_eq.mp hik with hik' | hik'
            · exact le_of_lt (hdom i hik' hattri)
            · subst hik'
              exact le_refl _
      · rw [if_neg hc2]
        have hknotbetter : ∀ j0, acc.1 = some j0 → attractive s (getArc s k) →
            absRc s (getArc s k) ≤ absRc s (getArc s j0) := by
          intro j0 h1 hattr
          obtain ⟨-, -, hacc2eq, -, -⟩ := IH2 j0 h1
          rcases hattr with ⟨hl, hneg⟩ | ⟨hu, hpos⟩
          · have h4 : ¬ reducedCost s (getArc s k) < acc.2 := fun hcon => hc1 ⟨hl, hcon⟩
            have habsk : absRc s (getArc s k) = -reducedCost s (getArc s k) := by
              unfold absRc
              exact abs_of_neg hneg
            rw [hacc2eq] at h4
            rw [habsk]
            linarith
          · have h4 : ¬ reducedCost s (getArc s k) > -acc.2 := fun hcon => hc2 ⟨hu, hcon⟩
            have habsk : absRc s (getArc s k) = reducedCost s (getArc s k) := by
              unfold absRc
              exact abs_of_pos hpos
            rw [hacc2eq] at h4
            rw [habsk]
            linarith
        constructor
        · intro h1
          obtain ⟨ha2, hnone⟩ := IH1 h1
          refine ⟨ha2, ?_⟩
          intro i hik
          rcases Nat.lt_succ_iff_lt_or_eq.mp hik with hik' | hik'
          · exact hnone i hik'
          · subst hik'
            intro hattr
            rcases hattr with ⟨hl, hneg⟩ | ⟨hu, hpos⟩
            · exact hc1 ⟨hl, by rw [ha2]; exact hneg⟩
            · refine hc2 ⟨hu, ?_⟩
              rw [ha2]
              simpa using hpos
        · intro j hj
          obtain ⟨hjk, hattrj, ha2, hle, hstrict⟩ := IH2 j hj
          refine ⟨by omega, hattrj, ha2, ?_, hstrict⟩
          intro i hik hattri
          rcases Nat.lt_succ_iff_lt_or_eq.mp hik with hik' | hik'
          · exact hle i hik' hattri
          · subst hik'
            exact hknotbetter j hj hattri

/-- C5: `primal_bea` returns `none` exactly when no non-basic arc is
attractive (AtLower with negative reduced cost, AtUpper with positive reduced
cost); otherwise it returns an attractive arc whose reduced cost has the
largest absolute value among all attractive arcs, with ties broken in favour
of the first-seen (lowest-index) arc. -/
theorem claim_C5_pricing (s : NetState) :
    (primalBea s = none ↔
      ∀ i : Fin s.arcs.length, ¬ attractive s (getArc s i.1)) ∧
    (∀ j, primalBea s = some j →
      j < s.arcs.length ∧ attractive s (getArc s j) ∧
      (∀ i : Fin s.arcs.length, attractive s (getArc s i.1) →
        absRc s (getArc s i.1) ≤ absRc s (getArc s j)) ∧
      (∀ i : Fin s.arcs.length, i.1 < j → attractive s (getArc s i.1) →
        absRc s (getArc s i.1) < absRc s (getArc s j))) := by
  obtain ⟨H1, H2⟩ := primalBea_invariant s s.arcs.length
  constructor
  · constructor
    · intro h i
      exact (H1 h).2 i.1 i.2
    · intro hall
      cases hfold : ((List.range s.arcs.length).foldl (primalBeaStep s)
          (none, 0)).1 with
      | none => exact hfold
      | some j =>
        obtain ⟨hjlen, hattrj, -⟩ := H2 j hfold
        exact absurd hattrj (hall ⟨j, hjlen⟩)
  · intro j hj
    obtain ⟨hjlen, hattrj, -, hle, hstrict⟩ := H2 j hj
    exact ⟨hjlen, hattrj, fun i hi => hle i.1 i.2 hi,
      fun i hlt hi => hstrict i.1 hlt hi⟩

/-- Witness for C5 on the concrete pricing state `exPrice`: `primal_bea`
selects arc 1 (reduced cost -5), which is attractive and dominates the
attractive AtUpper arc 2 (reduced cost 3). -/
theorem claim_C5_witness :
    attractive exPrice (getArc exPrice 1) ∧
    absRc exPrice (getArc exPrice 2) ≤ absRc exPrice (getArc exPrice 1) := by
  obtain ⟨-, H⟩ := claim_C5_pricing exPrice
  obtain ⟨-, hattr, hle, -⟩ := H 1 (by decide)
  exact ⟨hattr, hle ⟨2, by decide⟩ (by decide)⟩

/-! ## C6: characterisation of the ratio test -/

theorem runMin_cons (acc c : Nat × Int) (l : List (Nat × Int)) :
    runMin acc (c :: l) = runMin (if c.2 < acc.2 then c else acc) l := rfl

theorem runMin_append (acc : Nat × Int) (l1 l2 : List (Nat × Int)) :
    runMin acc (l1 ++ l2) = runMin (runMin acc l1) l2 :=
  List.foldl_append ..

theorem ratioWalkTail_eq (s : NetState) : ∀ (fuel v : Nat) (acc : Nat × Int),
    ratioWalkTail s fuel v acc = (pathCapsTail s fuel v).map (runMin acc)
  | 0, _, _ => rfl
  | fuel + 1, v, acc => by
    rcases hpred : (getNode s v).pred with _ | p
    · simp [ratioWalkTail, pathCapsTail, hpred, runMin]
    · rcases hba : (getNode s v).basicArc with _ | ai
      · simp [ratioWalkTail, pathCapsTail, hpred, hba]
      · rcases hrest : pathCapsTail s fuel p with _ | rest
        · simp [ratioWalkTail, pathCapsTail, hpred, hba, hrest,
            ratioWalkTail_eq s fuel]
        · simp [ratioWalkTail, pathCapsTail, hpred, hba, hrest,
            ratioWalkTail_eq s fuel, runMin_cons]

theorem ratioWalkHead_eq (s : NetState) : ∀ (fuel v : Nat) (acc : Nat × Int),
    ratioWalkHead s fuel v acc = (pathCapsHead s fuel v).map (runMin acc)
  | 0, _, _ => rfl
  | fuel + 1, v, acc => by
    rcases hpred : (getNode s v).pred with _ | p
    · simp [ratioWalkHead, pathCapsHead, hpred, runMin]
    · rcases hba : (getNode s v).basicArc with _ | ai
      · simp [ratioWalkHead, pathCapsHead, hpred, hba]
      · rcases hrest : pathCapsHead s fuel p with _ | rest
        · simp [ratioWalkHead, pathCapsHead, hpred, hba, hrest,
            ratioWalkHead_eq s fuel]
        · simp [ratioWalkHead, pathCapsHead, hpred, hba, hrest,
            ratioWalkHead_eq s fuel, runMin_cons]

theorem runMin_snd (l : List (Nat × Int)) : ∀ acc : Nat × Int,
    (runMin acc l).2 = l.foldl (fun d c => min d c.2) acc.2 := by
  induction l with
  | nil => intro acc; rfl
  | cons c l ih =>
    intro acc
    rw [runMin_cons, List.foldl_cons, ih]
    congr 1
    by_cases hc : c.2 < acc.2
    · rw [if_pos hc, min_eq_right (le_of_lt hc)]
    · rw [if_neg hc, min_eq_left (by omega)]

theorem runMin_le (l : List (Nat × Int)) : ∀ acc : Nat × Int,
    (runMin acc l).2 ≤ acc.2 := by
  induction l with
  | nil => intro acc; exact le_refl _
  | cons c l ih =>
    intro acc
    rw [runMin_cons]
    by_cases hc : c.2 < acc.2
    · rw [if_pos hc]
      exact le_of_lt (lt_of_le_of_lt (ih c) hc)
    · rw [if_neg hc]
      exact ih acc

theorem runMin_cases (l : List (Nat × Int)) : ∀ acc : Nat × Int,
    runMin acc l = acc ∨ (runMin acc l).2 < acc.2 := by
  induction l with
  | nil => intro acc; exact Or.inl rfl
  | cons c l ih =>
    intro acc
    rw [runMin_cons]
    by_cases hc : c.2 < acc.2
    · rw [if_pos hc]
      exact Or.inr (lt_of_le_of_lt (runMin_le l c) hc)
    · rw [if_neg hc]
      exact ih acc

theorem runMin_find : ∀ (l : List (Nat × Int)) (acc : Nat × Int),
    (acc :: l).find? (fun p => decide (p.2 ≤ (runMin acc l).2))
      = some (runMin acc l)
  | [], acc => by simp [runMin]
  | c :: l, acc => by
    rw [runMin_cons]
    by_cases hc : c.2 < acc.2
    · rw [if_pos hc]
      rw [List.find?_cons_of_neg _ (by
        have hle := runMin_le l c
        simp only [decide_eq_true_eq]
        omega)]
      exact runMin_find l c
    · rw [if_neg hc]
      rcases runMin_cases l acc with heq | hlt
      · rw [heq]
        exact List.find?_cons_of_pos _ (by simp)
      · have hih := runMin_find l acc
        rw [List.find?_cons_of_neg _ (by
          simp only [decide_eq_true_eq]
          omega)] at hih
        rw [List.find?_cons_of_neg _ (by
          simp only [decide_eq_true_eq]
          omega),
          List.find?_cons_of_neg _ (by
            simp only [decide_eq_true_eq]
            omega)]
        exact hih

theorem pathCapsTail_nonneg (s : NetState)
    (hb : ∀ i : Nat, 0 ≤ (getArc s i).flow ∧
      (getArc s i).flow ≤ (getArc s i).capacity) :
    ∀ (fuel v : Nat) (caps : List (Nat × Int)),
      pathCapsTail s fuel v = some caps → ∀ p ∈ caps, 0 ≤ p.2
  | 0, _, _, h => Option.noConfusion h
  | fuel + 1, v, caps, h => by
    rcases hpred : (getNode s v).pred with _ | pn
    · simp only [pathCapsTail, hpred, Option.some.injEq] at h
      subst h
      intro p hp
      cases hp
    · rcases hba : (getNode s v).basicArc with _ | ai
      · simp [pathCapsTail, hpred, hba] at h
      · rcases hrest : pathCapsTail s fuel pn with _ | rest
        · simp [pathCapsTail, hpred, hba, hrest] at h
        · simp only [pathCapsTail, hpred, hba, hrest, Option.some.injEq] at h
          subst h
          intro p hp
          rcases List.mem_cons.mp hp with hp | hp
          · subst hp
            obtain ⟨h1, h2⟩ := hb ai
            dsimp only
            split
            · exact h1
            · omega
          · exact pathCapsTail_nonneg s hb fuel pn rest hrest p hp

theorem pathCapsHead_nonneg (s : NetState)
    (hb : ∀ i : Nat, 0 ≤ (getArc s i).flow ∧
      (getArc s i).flow ≤ (getArc s i).capacity) :
    ∀ (fuel v : Nat) (caps : List (Nat × Int)),
      pathCapsHead s fuel v = some caps → ∀ p ∈ caps, 0 ≤ p.2
  | 0, _, _, h => Option.noConfusion h
  | fuel + 1, v, caps, h => by
    rcases hpred : (getNode s v).pred with _ | pn
    · simp only [pathCapsHead, hpred, Option.some.injEq] at h
      subst h
      intro p hp
      cases hp
    · rcases hba : (getNode s v).basicArc with _ | ai
      · simp [pathCapsHead, hpred, hba] at h
      · rcases hrest : pathCapsHead s fuel pn with _ | rest
        · simp [pathCapsHead, hpred, hba, hrest] at h
        · simp only [pathCapsHead, hpred, hba, hrest, Option.some.injEq] at h
          subst h
          intro p hp
          rcases List.mem_cons.mp hp with hp | hp
          · subst hp
            obtain ⟨h1, h2⟩ := hb ai
            dsimp only
            split
            · omega
            · exact h1
          · exact pathCapsHead_nonneg s hb fuel pn rest hrest p hp

theorem foldl_min_nonneg : ∀ (l : List Int) (d : Int), 0 ≤ d →
    (∀ x ∈ l, 0 ≤ x) → 0 ≤ l.foldl min d
  | [], d, hd, _ => hd
  | x :: l, d, hd, hl => by
    rw [List.foldl_cons]
    exact foldl_min_nonneg l (min d x)
      (le_min hd (hl x (List.mem_cons_self x l)))
      fun y hy => hl y (List.mem_cons_of_mem x hy)

/-- C6: whenever `ratio_test` returns (the fueled walks finish) on a state
whose flows lie within `[0, capacity]`, the returned delta is the minimum of
the entering arc's own bound and the directional residual capacities along
the tail-to-root and head-to-root walks, it is non-negative (finite by
construction), and the leaving arc is the first entry attaining that minimum
in the order: entering bound first, then the tail path, then the head path. -/
theorem claim_C6_ratio (s : NetState) (fuel e l : Nat) (delta : Int)
    (hrt : ratioTest s fuel e = some (l, delta))
    (hb : ∀ i : Nat, 0 ≤ (getArc s i).flow ∧
      (getArc s i).flow ≤ (getArc s i).capacity) :
    ∃ capsT capsH : List (Nat × Int),
      pathCapsTail s fuel (getArc s e).tail = some capsT ∧
      pathCapsHead s fuel (getArc s e).head = some capsH ∧
      delta = ((capsT ++ capsH).map Prod.snd).foldl min (enterBound s e) ∧
      0 ≤ delta ∧
      ((e, enterBound s e) :: (capsT ++ capsH)).find?
        (fun p => decide (p.2 ≤ delta)) = some (l, delta) := by
  simp only [ratioTest] at hrt
  rw [ratioWalkTail_eq] at hrt
  rcases hT : pathCapsTail s fuel (getArc s e).tail with _ | capsT
  · rw [hT] at hrt
    exact Option.noConfusion hrt
  · rw [hT] at hrt
    replace hrt : (pathCapsHead s fuel (getArc s e).head).map
        (runMin (runMin (e, enterBound s e) capsT)) = some (l, delta) := by
      rw [← ratioWalkHead_eq]
      exact hrt
    rcases hH : pathCapsHead s fuel (getArc s e).head with _ | capsH
    · rw [hH] at hrt
      exact Option.noConfusion hrt
    · rw [hH] at hrt
      have hr : runMin (e, enterBound s e) (capsT ++ capsH) = (l, delta) := by
        rw [runMin_append]
        exact Option.some.inj hrt

      have hsnd := runMin_snd (capsT ++ capsH) (e, enterBound s e)
      rw [hr] at hsnd
      have hbound0 : (0 : Int) ≤ enterBound s e := by
        unfold enterBound
        obtain ⟨h1, h2⟩ := hb e
        split
        · exact h1
        · omega
      have hcaps : ∀ x ∈ (capsT ++ capsH).map Prod.snd, (0 : Int) ≤ x := by
        intro x hx
        obtain ⟨p, hp, hpx⟩ := List.mem_map.mp hx
        subst hpx
        rcases List.mem_append.mp hp with hp | hp
        · exact pathCapsTail_nonneg s hb fuel _ capsT hT p hp
        · exact pathCapsHead_nonneg s hb fuel _ capsH hH p hp
      refine ⟨capsT, capsH, rfl, rfl, ?_, ?_, ?_⟩
      · rw [List.foldl_map]
        exact hsnd
      · have hmin : delta = ((capsT ++ capsH).map Prod.snd).foldl min
            (enterBound s e) := by
          rw [List.foldl_map]
          exact hsnd
        rw [hmin]
        exact foldl_min_nonneg _ _ hbound0 hcaps
      · have hfind := runMin_find (capsT ++ capsH) (e, enterBound s e)
        rw [hr] at hfind
        simpa using hfind

/-- Witness for C6 on the concrete state `exRatio`: the entering arc 1 has
bound 10, the tail walk crosses basic arc 0 with residual 5, and
`ratio_test` returns leaving arc 0 with delta 5, the first minimum. -/
theorem claim_C6_witness :
    ∃ capsT capsH : List (Nat × Int),
      pathCapsTail exRatio 5 (getArc exRatio 1).tail = some capsT ∧
      pathCapsHead exRatio 5 (getArc exRatio 1).head = some capsH ∧
      (5 : Int) = ((capsT ++ capsH).map Prod.snd).foldl min (enterBound exRatio 1) ∧
      (0 : Int) ≤ 5 ∧
      ((1, enterBound exRatio 1) :: (capsT ++ capsH)).find?
        (fun p => decide (p.2 ≤ (5 : Int))) = some (0, 5) := by
  have hlen : exRatio.arcs.length = 2 := rfl
  refine claim_C6_ratio exRatio 5 1 0 5 (by decide) ?_
  intro i
  match i with
  | 0 => exact ⟨by decide, by decide⟩
  | 1 => exact ⟨by decide, by decide⟩
  | n + 2 =>
    have hoob : getArc exRatio (n + 2) = Arc.dummy := by
      unfold getArc
      rw [List.getD_eq_getElem?_getD, List.getElem?_eq_none (by omega)]
      rfl
    rw [hoob]
    exact ⟨le_refl 0, le_refl 0⟩

end GraphSimplex
